import Mathlib

/-!
Shallow embedding of the pullapod podcast-download CLI, covering the
episode download pipeline (feed parsing, episode filtering, download
orchestration, metadata embedding) and the CLI validation utilities.

Pure TypeScript functions from the repository are translated to Lean
functions; JavaScript numbers that can be NaN are modelled by an explicit
sum type; thrown errors become Except values; the effectful episodes
command is modelled as a function returning the ordered list of external
effects it performs together with the error it raises, if any.

Timestamps are Unix seconds as Int.  A host timezone is modelled by its
UTC offset in seconds (positive = east of UTC), so the instant at which
the local wall clock of a given calendar day reads 00:00 is
(epoch day number) * 86400 - offset.
-/

namespace Pullapod

/-- JavaScript number restricted to the values that appear in the embedded
code paths: integers and NaN (the result of parseInt on a non-numeric
string).  Comparisons involving NaN are false, as in IEEE/JS. -/
inductive JSNum where
  | nan : JSNum
  | int : Int → JSNum
deriving DecidableEq, Repr

/-- JavaScript `<` on numbers: any comparison with NaN is false. -/
def jsLt : JSNum → JSNum → Bool
  | JSNum.nan, _ => false
  | _, JSNum.nan => false
  | JSNum.int a, JSNum.int b => a < b

/-- Rendering of a JS number into an error message. -/
def jsNumStr : JSNum → String
  | JSNum.nan => "NaN"
  | JSNum.int n => toString n

/-- Numeric value of a decimal digit character. -/
def digitVal (c : Char) : Nat := c.toNat - '0'.toNat

/-- Value of a list of decimal digit characters. -/
def digitsToNat (cs : List Char) : Nat :=
  cs.foldl (fun acc c => acc * 10 + digitVal c) 0

/-- Core of JS parseInt with radix 10: after sign handling, take the
leading run of digits; NaN when there is none. -/
def jsParseIntCore (neg : Bool) (cs : List Char) : JSNum :=
  let digits := cs.takeWhile (fun c => c.isDigit)
  if digits.isEmpty then JSNum.nan
  else JSNum.int ((if neg then (-1 : Int) else 1) * (digitsToNat digits : Int))

/-- JS `parseInt(s, 10)`: skip leading whitespace, optional sign, then the
leading run of decimal digits; NaN when no digit follows. -/
def jsParseInt (s : String) : JSNum :=
  match s.toList.dropWhile (fun c => c.isWhitespace) with
  | '-' :: rest => jsParseIntCore true rest
  | '+' :: rest => jsParseIntCore false rest
  | cs => jsParseIntCore false cs

/-- src/utils/validation.ts, validateRange (lines 70-81): throws a
ValidationError (modelled as Except.error with the thrown message) exactly
when `value < min || value > max` under JS comparison. -/
def validateRange (value lo hi : JSNum) (fieldName : String) :
    Except String Unit :=
  if jsLt value lo || jsLt hi value then
    Except.error (fieldName ++ " must be between " ++ jsNumStr lo ++
      " and " ++ jsNumStr hi ++ ", got " ++ jsNumStr value)
  else
    Except.ok ()

/-- Shape check of the anchored four-digits, hyphen, two-digits, hyphen,
two-digits regex from validateDateFormat: exactly ten characters, digits
except for hyphens at positions 4 and 7; on success, the numeric year,
month, day. -/
def validDateShape : List Char → Option (Nat × Nat × Nat)
  | [y1, y2, y3, y4, h1, m1, m2, h2, d1, d2] =>
    if y1.isDigit && y2.isDigit && y3.isDigit && y4.isDigit &&
        h1 == '-' && m1.isDigit && m2.isDigit && h2 == '-' &&
        d1.isDigit && d2.isDigit then
      some (digitsToNat [y1, y2, y3, y4], digitsToNat [m1, m2],
        digitsToNat [d1, d2])
    else none
  | _ => none

/-- Gregorian leap year rule. -/
def isLeapYear (y : Nat) : Bool :=
  (y % 4 == 0 && y % 100 != 0) || y % 400 == 0

/-- Number of days in a month. -/
def daysInMonth (y m : Nat) : Nat :=
  if m == 2 then (if isLeapYear y then 29 else 28)
  else if m == 4 || m == 6 || m == 9 || m == 11 then 30
  else 31

/-- Whether (y, m, d) is a real calendar date.  ECMAScript rejects a
Date-only string whose components are out of range (for example
2024-02-30), yielding an invalid Date, hence NaN from getTime. -/
def validCalendarDate (y m d : Nat) : Bool :=
  decide (1 ≤ m) && decide (m ≤ 12) && decide (1 ≤ d) &&
    decide (d ≤ daysInMonth y m)

/-- src/utils/validation.ts, validateDateFormat (lines 46-54): the regex
shape check followed by JS Date parseability of the string. -/
def validateDateFormat (s : String) : Bool :=
  match validDateShape s.toList with
  | none => false
  | some (y, m, d) => validCalendarDate y m d

/-- src/utils/validation.ts, requireValidDate (lines 59-65): throws a
ValidationError when validateDateFormat fails. -/
def requireValidDate (s fieldName : String) : Except String Unit :=
  if validateDateFormat s then Except.ok ()
  else Except.error ("Invalid " ++ fieldName ++ " format: " ++ s ++
    ". Expected format: YYYY-MM-DD")

/-- Days since the Unix epoch of the civil date (y, m, d), for
0 ≤ y ≤ 9999 and a valid month/day (standard days-from-civil algorithm,
carried out in Nat by shifting the year by one 400-year era). -/
def daysFromCivil (y m d : Nat) : Int :=
  let yAdj := if m ≤ 2 then y + 399 else y + 400
  let era := yAdj / 400
  let yoe := yAdj % 400
  let mp := if m ≤ 2 then m + 9 else m - 3
  let doy := (153 * mp + 2) / 5 + d - 1
  let doe := yoe * 365 + yoe / 4 - yoe / 100 + doy
  (era * 146097 + doe : Int) - 865565

/-- src/unnamed/part_000, dateToTimestamp (lines 22-25):
`Math.floor(new Date(dateString).getTime() / 1000)`.  Per ECMAScript, a
date-only string of valid shape is interpreted as midnight UTC of that
calendar day, so the result is (epoch day) * 86400; an unparseable string
gives NaN (modelled as none).  In the command it is only invoked after
requireValidDate succeeded. -/
def dateToTimestamp (s : String) : Option Int :=
  match validDateShape s.toList with
  | none => none
  | some (y, m, d) =>
    if validCalendarDate y m d then some (daysFromCivil y m d * 86400)
    else none

/-- Calendar day number (days since epoch, in the timezone with the given
UTC offset in seconds) on which the instant t falls: truncation of the
local clock to local midnight. -/
def localCalendarDay (t offset : Int) : Int := (t + offset) / 86400

/-- The instant at which the local wall clock of the timezone with the
given UTC offset reads midnight of the civil date (y, m, d). -/
def localMidnight (y m d : Nat) (offset : Int) : Int :=
  daysFromCivil y m d * 86400 - offset

/-- One parsed episode: the EpisodeRecord of the data model. -/
structure EpisodeRecord where
  title : String
  guid : String
  pubTimestamp : Int
  audioUrl : String
  artworkUrl : Option String
deriving DecidableEq, Repr

/-- Modelled from the spec: the EpisodeFilter's exact-date selection
(the filter source is not in the repository snapshot; only its tests and
docs are).  An episode matches when its publish instant, truncated to
local midnight, falls on the target calendar day; comparison is by local
calendar day, never by naive UTC string slicing. -/
def filterByDate (eps : List EpisodeRecord) (y m d : Nat) (offset : Int) :
    List EpisodeRecord :=
  eps.filter (fun e =>
    localCalendarDay e.pubTimestamp offset == daysFromCivil y m d)

/-- Modelled from the spec: the date-range membership test of the
EpisodeFilter — inclusive on both ends, each bound optional, same
local-calendar-day comparison as the exact-date filter. -/
def inDateRange (t : Int) (startD endD : Option (Nat × Nat × Nat))
    (offset : Int) : Bool :=
  (match startD with
    | none => true
    | some p => decide (daysFromCivil p.1 p.2.1 p.2.2 ≤
        localCalendarDay t offset)) &&
  (match endD with
    | none => true
    | some p => decide (localCalendarDay t offset ≤
        daysFromCivil p.1 p.2.1 p.2.2))

/-- Modelled from the spec: the EpisodeFilter's date-range selection
(the filter source is not in the repository snapshot). -/
def filterByDateRange (eps : List EpisodeRecord)
    (startD endD : Option (Nat × Nat × Nat)) (offset : Int) :
    List EpisodeRecord :=
  eps.filter (fun e => inDateRange e.pubTimestamp startD endD offset)

/-- Errors raised by the episodes command before any request is made. -/
inductive CmdError where
  | validation : String → CmdError
  | credentials : CmdError
deriving DecidableEq, Repr

/-- External effects of the episodes command that matter to the error
design: constructing the HTTP client and issuing the API request. -/
inductive CmdEvent where
  | clientInit : CmdEvent
  | apiRequest : CmdEvent
deriving DecidableEq, Repr

/-- Outcome of one run of the episodes command: ordered effects performed
and the error that aborted it, if any. -/
structure CmdRun where
  events : List CmdEvent
  err : Option CmdError
deriving DecidableEq, Repr

/-- Line 36 of the episodes command: --max is parsed with parseInt when
it is a truthy (non-empty) string, else defaults to 20. -/
def parseMaxOption (maxOpt : Option String) : JSNum :=
  match maxOpt with
  | none => JSNum.int 20
  | some s => if s.isEmpty then JSNum.int 20 else jsParseInt s

/-- Lines 40-44 of the episodes command: --since is validated only when
it is a truthy (non-empty) string. -/
def sinceCheck (sinceOpt : Option String) : Except String Unit :=
  match sinceOpt with
  | some s =>
    if s.isEmpty then Except.ok () else requireValidDate s "--since"
  | none => Except.ok ()

/-- src/unnamed/part_000, episodesCommand (lines 30-83), up to the API
request, with the response handling abstracted away: validate the --max
range, then validate --since, then load credentials, construct the
client, and issue the request.  A thrown ValidationError aborts before
any effect. -/
def episodesCommandModel (hasCreds : Bool)
    (maxOpt sinceOpt : Option String) : CmdRun :=
  match validateRange (parseMaxOption maxOpt) (JSNum.int 1)
      (JSNum.int 100) "Max episodes" with
  | Except.error msg => ⟨[], some (CmdError.validation msg)⟩
  | Except.ok _ =>
    match sinceCheck sinceOpt with
    | Except.error msg => ⟨[], some (CmdError.validation msg)⟩
    | Except.ok _ =>
      if hasCreds then ⟨[CmdEvent.clientInit, CmdEvent.apiRequest], none⟩
      else ⟨[], some CmdError.credentials⟩

/-- Outcome of fetching one episode's audio, as seen by the downloader:
a successful body of some byte length, a non-2xx HTTP status, or a
network-level failure. -/
inductive DownloadOutcome where
  | success : Nat → DownloadOutcome
  | httpError : Nat → DownloadOutcome
  | netError : String → DownloadOutcome
deriving DecidableEq, Repr

/-- Per-task outcome of the data model: succeeded or failed with a
descriptive cause naming the episode. -/
structure DownloadResult where
  episodeTitle : String
  ok : Bool
  bytes : Nat
  cause : Option String
deriving DecidableEq, Repr

/-- Modelled from the spec: how the Downloader turns one fetch outcome
into a DownloadResult — a failure is data carrying a cause that names the
HTTP status or network reason and the episode (the Downloader source is
not in the repository snapshot; only its tests and docs are). -/
def downloadResultFor (e : EpisodeRecord) (out : DownloadOutcome) :
    DownloadResult :=
  match out with
  | DownloadOutcome.success n => ⟨e.title, true, n, none⟩
  | DownloadOutcome.httpError c =>
    ⟨e.title, false, 0,
      some ("HTTP " ++ Nat.repr c ++ " downloading " ++ e.title)⟩
  | DownloadOutcome.netError m =>
    ⟨e.title, false, 0, some (m ++ " downloading " ++ e.title)⟩

/-- The RunReport of the data model: ordered per-episode results plus
success/failure counts. -/
structure RunReport where
  results : List DownloadResult
  succeeded : Nat
  failed : Nat
deriving DecidableEq, Repr

/-- Modelled from the spec: the Orchestrator's download phase (source not
in the repository snapshot).  Every selected episode is attempted; each
task's outcome depends only on its own fetch; failures are recorded as
data, never thrown, and the report preserves selection order. -/
def runDownloads (eps : List EpisodeRecord)
    (fetch : EpisodeRecord → DownloadOutcome) : RunReport :=
  let results := eps.map (fun e => downloadResultFor e (fetch e))
  ⟨results, (results.filter (fun r => r.ok)).length,
    (results.filter (fun r => !r.ok)).length⟩

/-- One raw item of a fetched feed document, after XML normalization:
optional title, GUID, publish instant, optional audio enclosure URL,
optional item-level artwork URL. -/
structure RawItem where
  title : Option String
  guid : String
  pubTimestamp : Int
  enclosureUrl : Option String
  itemImage : Option String
deriving DecidableEq, Repr

/-- Modelled from the spec: episode artwork resolution — the item-level
artwork when present, else the feed-level image. -/
def resolveArtwork (feedImage itemImage : Option String) :
    Option String :=
  match itemImage with
  | some u => some u
  | none => feedImage

/-- Modelled from the spec: the FeedParser's per-item normalization
(parser source not in the repository snapshot; only its tests and docs
are).  An item without an audio enclosure is silently excluded (none); a
missing title gets a deterministic placeholder; artwork falls back to the
feed image. -/
def parseItem (feedImage : Option String) (it : RawItem) :
    Option EpisodeRecord :=
  match it.enclosureUrl with
  | none => none
  | some u =>
    some ⟨it.title.getD "Untitled Episode", it.guid, it.pubTimestamp, u,
      resolveArtwork feedImage it.itemImage⟩

/-- Modelled from the spec: the FeedParser's item list, in feed-document
order. -/
def parseItems (feedImage : Option String) (items : List RawItem) :
    List EpisodeRecord :=
  items.filterMap (parseItem feedImage)

/-- Characters illegal in filenames on common filesystems. -/
def illegalFsChar (c : Char) : Bool :=
  c == '/' || c == '\\' || c == ':' || c == '*' || c == '?' ||
    c == '\"' || c == '<' || c == '>' || c == '|'

/-- Collapse every maximal run of whitespace characters into one single
space (the behaviour of replacing each whitespace run with a space). -/
def collapseWhitespace : List Char → List Char
  | [] => []
  | [c] => [if c.isWhitespace then ' ' else c]
  | a :: b :: rest =>
    if a.isWhitespace then
      if b.isWhitespace then collapseWhitespace (b :: rest)
      else ' ' :: collapseWhitespace (b :: rest)
    else a :: collapseWhitespace (b :: rest)

/-- Remove every trailing period. -/
def stripTrailingPeriods (cs : List Char) : List Char :=
  (cs.reverse.dropWhile (fun c => c == '.')).reverse

/-- Modelled from the spec: sanitizeForFilesystem (source not in the
repository snapshot; only its tests and docs are) — strip characters
illegal on common filesystems, collapse repeated whitespace, and strip
trailing periods (a Windows restriction honored universally). -/
def sanitizeForFilesystem (s : String) : String :=
  String.mk (stripTrailingPeriods (collapseWhitespace
    (s.toList.filter (fun c => !illegalFsChar c))))

/-- Whether every whitespace character of the list is a plain space. -/
def wsNormalized : List Char → Bool
  | [] => true
  | c :: t => (!c.isWhitespace || c == ' ') && wsNormalized t

/-- Whether the list has no two adjacent spaces. -/
def noAdjacentSpaces : List Char → Bool
  | [] => true
  | [_] => true
  | a :: b :: rest =>
    !(a == ' ' && b == ' ') && noAdjacentSpaces (b :: rest)

/-- A string that is already filesystem-safe: no illegal character, only
plain single spaces as whitespace, no adjacent spaces, no trailing
period. -/
def isFsSafe (s : String) : Bool :=
  s.toList.all (fun c => !illegalFsChar c) && wsNormalized s.toList &&
    noAdjacentSpaces s.toList && s.toList.getLast? != some '.'

/-- ID3-style tag values written by the embedder. -/
structure Id3Tags where
  title : String
  artist : String
  comment : String
deriving DecidableEq, Repr

/-- Extension of a file path: the characters after the last period,
lowercased; empty when the path has no period. -/
def fileExtension (path : String) : String :=
  let cs := path.toList
  let afterDot := cs.reverse.takeWhile (fun c => c != '.')
  if afterDot.length == cs.length then ""
  else String.mk (afterDot.reverse.map Char.toLower)

/-- Whether the file format supports ID3-style tagging (MP3). -/
def supportsTagging (path : String) : Bool := fileExtension path == "mp3"

/-- An audio file on disk: its path and its byte content. -/
structure AudioFile where
  path : String
  bytes : List Nat
deriving DecidableEq, Repr

/-- Byte payload of an ID3 tag frame for the given tag values (simplified
encoding; what matters to the claims is that it is prepended only to
supported formats). -/
def id3TagBytes (tags : Id3Tags) : List Nat :=
  (tags.title.toList ++ tags.artist.toList ++ tags.comment.toList).map
    Char.toNat

/-- Modelled from the spec: the MetadataEmbedder's embed operation
(source not in the repository snapshot; only its tests and docs are).
It writes tags into files of a supported format and silently no-ops,
returning success, for any other format; the Bool is the success flag. -/
def embedMetadata (file : AudioFile) (tags : Id3Tags) :
    AudioFile × Bool :=
  if supportsTagging file.path then
    ({ file with bytes := id3TagBytes tags ++ file.bytes }, true)
  else (file, true)

/-- Index of the last space at or before position k (JS
`lastIndexOf(' ', k)`, with out-of-range positions skipped exactly as the
fromIndex clamp does). -/
def lastSpaceAtOrBefore (cs : List Char) : Nat → Option Nat
  | 0 => if cs.getD 0 'a' == ' ' then some 0 else none
  | k + 1 =>
    if cs.getD (k + 1) 'a' == ' ' then some (k + 1)
    else lastSpaceAtOrBefore cs k

/-- src/utils/format.ts, truncateText (lines 12-26): return short or
empty input unchanged; otherwise truncate at the last space at or before
maxLength - suffix.length when one exists, else hard-truncate there, and
append the suffix.  JS substring clamps a negative end to 0, as Nat
subtraction does. -/
def truncateText (text : String) (maxLength : Nat) (suffix : String) :
    String :=
  if text.isEmpty || text.length ≤ maxLength then text
  else
    match lastSpaceAtOrBefore text.toList (maxLength - suffix.length) with
    | none =>
      String.mk (text.toList.take (maxLength - suffix.length)) ++ suffix
    | some i => String.mk (text.toList.take i) ++ suffix

/-- Fixture: an episode published at local noon of the given epoch day in
the timezone with the given offset. -/
def epAtLocalNoon (title guid : String) (day offset : Int) :
    EpisodeRecord :=
  ⟨title, guid, day * 86400 + 43200 - offset, "https://host/" ++ guid ++
    ".mp3", none⟩

/-- Fixture for the range-filter scenario: the January 15 2024 episode. -/
def epJan15 (offset : Int) : EpisodeRecord :=
  epAtLocalNoon "Jan 15" "g15" (daysFromCivil 2024 1 15) offset

/-- Fixture for the range-filter scenario: the January 16 2024 episode. -/
def epJan16 (offset : Int) : EpisodeRecord :=
  epAtLocalNoon "Jan 16" "g16" (daysFromCivil 2024 1 16) offset

/-- Fixture for the range-filter scenario: the January 17 2024 episode. -/
def epJan17 (offset : Int) : EpisodeRecord :=
  epAtLocalNoon "Jan 17" "g17" (daysFromCivil 2024 1 17) offset

/-- Fixture: feed item with an audio enclosure. -/
def rawWithEnclosure : RawItem :=
  ⟨some "With audio", "ga", 1714003200, some "https://x/a.mp3", none⟩

/-- Fixture: show-note-only feed item without an audio enclosure. -/
def rawNoEnclosure : RawItem :=
  ⟨some "Show notes only", "gb", 1714003200, none, none⟩

/-- Fixture: episodes for the 404-isolation scenario. -/
def epBad : EpisodeRecord :=
  ⟨"bad", "gbad", 1714003200, "https://x/bad.mp3", none⟩

/-- Fixture: a healthy sibling episode. -/
def epGood : EpisodeRecord :=
  ⟨"good", "ggood", 1714003200, "https://x/good.mp3", none⟩

/-- Fixture: fetch behaviour where only epBad's URL returns HTTP 404. -/
def fetch404 (e : EpisodeRecord) : DownloadOutcome :=
  if e.title == "bad" then DownloadOutcome.httpError 404
  else DownloadOutcome.success 100

/-! ## Theorems -/

/-- Splitting a list by a predicate partitions its length. -/
theorem filterLengthSplit {α : Type} (l : List α) (p : α → Bool) :
    (l.filter p).length + (l.filter (fun a => !p a)).length = l.length := by
  induction l with
  | nil => rfl
  | cons a t ih =>
    cases hp : p a <;> simp [List.filter_cons, hp] <;> omega

/-- A parsed episode's audio URL is the enclosure URL of its item. -/
theorem parseItem_enclosureUrl (f : Option String) (it : RawItem)
    (e : EpisodeRecord) (h : parseItem f it = some e) :
    it.enclosureUrl = some e.audioUrl := by
  unfold parseItem at h
  cases hEnc : it.enclosureUrl with
  | none => rw [hEnc] at h; exact Option.noConfusion h
  | some u =>
    rw [hEnc] at h
    simp only [Option.some.injEq] at h
    subst h
    rfl

/-- The parser returns one episode per item that has an enclosure. -/
theorem parseItems_length (f : Option String) (items : List RawItem) :
    (parseItems f items).length = items.length -
      (items.filter (fun it => it.enclosureUrl.isNone)).length := by
  induction items with
  | nil => rfl
  | cons it t ih =>
    have hle := List.length_filter_le
      (fun it => it.enclosureUrl.isNone) t
    simp only [parseItems] at ih ⊢
    cases hEnc : it.enclosureUrl with
    | none =>
      have hp : parseItem f it = none := by simp [parseItem, hEnc]
      rw [List.filterMap_cons, hp, List.filter_cons_of_pos (by simp [hEnc])]
      simp only [List.length_cons]
      omega
    | some u =>
      have hp : parseItem f it = some ⟨it.title.getD "Untitled Episode",
          it.guid, it.pubTimestamp, u, resolveArtwork f it.itemImage⟩ := by
        simp [parseItem, hEnc]
      rw [List.filterMap_cons, hp, List.filter_cons_of_neg (by simp [hEnc])]
      simp only [List.length_cons]
      omega

/-- The index returned by lastSpaceAtOrBefore is within the bound. -/
theorem lastSpace_le (cs : List Char) (k i : Nat)
    (h : lastSpaceAtOrBefore cs k = some i) : i ≤ k := by
  induction k with
  | zero =>
    unfold lastSpaceAtOrBefore at h
    split at h
    · simp only [Option.some.injEq] at h
      omega
    · exact Option.noConfusion h
  | succ k ih =>
    unfold lastSpaceAtOrBefore at h
    split at h
    · simp only [Option.some.injEq] at h
      omega
    · exact Nat.le_succ_of_le (ih h)

/-- The index returned by lastSpaceAtOrBefore points at a space. -/
theorem lastSpace_space (cs : List Char) (k i : Nat)
    (h : lastSpaceAtOrBefore cs k = some i) : cs.getD i 'a' = ' ' := by
  induction k with
  | zero =>
    unfold lastSpaceAtOrBefore at h
    split at h
    · rename_i hc
      simp only [Option.some.injEq] at h
      subst h
      exact eq_of_beq hc
    · exact Option.noConfusion h
  | succ k ih =>
    unfold lastSpaceAtOrBefore at h
    split at h
    · rename_i hc
      simp only [Option.some.injEq] at h
      subst h
      exact eq_of_beq hc
    · exact ih h

/-- No space lies strictly between the returned index and the bound. -/
theorem lastSpace_maximal (cs : List Char) (k i : Nat)
    (h : lastSpaceAtOrBefore cs k = some i) :
    ∀ j, i < j → j ≤ k → cs.getD j 'a' ≠ ' ' := by
  induction k with
  | zero =>
    intro j h1 h2 _
    have := lastSpace_le cs 0 i h
    omega
  | succ k ih =>
    intro j h1 h2 heq
    unfold lastSpaceAtOrBefore at h
    split at h
    · simp only [Option.some.injEq] at h
      omega
    · rename_i hc
      rcases Nat.lt_or_ge j (k + 1) with hj | hj
      · exact ih h j h1 (by omega) heq
      · have hjk : j = k + 1 := by omega
        subst hjk
        exact hc (by rw [heq]; exact beq_self_eq_true _)

/-- When lastSpaceAtOrBefore finds nothing, no position within the bound
holds a space. -/
theorem lastSpace_none (cs : List Char) (k : Nat)
    (h : lastSpaceAtOrBefore cs k = none) :
    ∀ j, j ≤ k → cs.getD j 'a' ≠ ' ' := by
  induction k with
  | zero =>
    intro j hj heq
    unfold lastSpaceAtOrBefore at h
    split at h
    · exact Option.noConfusion h
    · rename_i hc
      have hj0 : j = 0 := by omega
      subst hj0
      exact hc (by rw [heq]; exact beq_self_eq_true _)
  | succ k ih =>
    intro j hj heq
    unfold lastSpaceAtOrBefore at h
    split at h
    · exact Option.noConfusion h
    · rename_i hc
      rcases Nat.lt_or_ge j (k + 1) with hj2 | hj2
      · exact ih h j (by omega) heq
      · have hjk : j = k + 1 := by omega
        subst hjk
        exact hc (by rw [heq]; exact beq_self_eq_true _)

/-- If some position within the bound holds a space, lastSpaceAtOrBefore
finds one at least as far right. -/
theorem lastSpace_found (cs : List Char) (k j : Nat) (hj : j ≤ k)
    (hsp : cs.getD j 'a' = ' ') :
    ∃ i, lastSpaceAtOrBefore cs k = some i ∧ j ≤ i := by
  cases hres : lastSpaceAtOrBefore cs k with
  | none => exact absurd hsp (lastSpace_none cs k hres j hj)
  | some i =>
    refine ⟨i, rfl, ?_⟩
    by_contra hlt
    push_neg at hlt
    exact lastSpace_maximal cs k i hres j hlt hj hsp

/-- C5: validateRange throws a ValidationError exactly when value < min
or value > max under JS comparison, returns normally otherwise, and NaN
satisfies neither comparison, so a non-numeric --max string parsed with
parseInt to NaN passes range validation without error. -/
theorem pullapod_c5_range :
    (∀ (v lo hi : Int) (fn : String),
      (v < lo ∨ hi < v → ∃ msg,
        validateRange (JSNum.int v) (JSNum.int lo) (JSNum.int hi) fn =
          Except.error msg)
      ∧ (lo ≤ v → v ≤ hi →
        validateRange (JSNum.int v) (JSNum.int lo) (JSNum.int hi) fn =
          Except.ok ()))
    ∧ (∀ (lo hi : Int) (fn : String),
      validateRange JSNum.nan (JSNum.int lo) (JSNum.int hi) fn =
        Except.ok ())
    ∧ (∀ s : String, jsParseInt s = JSNum.nan →
      validateRange (jsParseInt s) (JSNum.int 1) (JSNum.int 100)
        "Max episodes" = Except.ok ()) := by
  refine ⟨fun v lo hi fn => ⟨fun h => ?_, fun h1 h2 => ?_⟩,
    fun lo hi fn => rfl, fun s hs => ?_⟩
  · simp only [validateRange, jsLt]
    rw [if_pos]
    · exact ⟨_, rfl⟩
    · simp only [Bool.or_eq_true, decide_eq_true_eq]
      omega
  · simp only [validateRange, jsLt]
    rw [if_neg]
    simp only [Bool.or_eq_true, decide_eq_true_eq]
    omega
  · rw [hs]
    rfl

/-- Witness for C5 at value 0 (throws), value 50 (in range), and the
non-numeric string "abc" (NaN passes). -/
theorem pullapod_c5_witness :
    (∃ msg, validateRange (JSNum.int 0) (JSNum.int 1) (JSNum.int 100)
      "Max episodes" = Except.error msg)
    ∧ validateRange (JSNum.int 50) (JSNum.int 1) (JSNum.int 100)
        "Max episodes" = Except.ok ()
    ∧ validateRange (jsParseInt "abc") (JSNum.int 1) (JSNum.int 100)
        "Max episodes" = Except.ok () :=
  ⟨(pullapod_c5_range.1 0 1 100 "Max episodes").1 (Or.inl (by decide)),
    (pullapod_c5_range.1 50 1 100 "Max episodes").2 (by decide)
      (by decide),
    pullapod_c5_range.2.2 "abc" (by decide)⟩

/-- C8: on a file whose format does not support ID3-style tagging, the
embed operation is a no-op returning success with the file bytes
untouched; on a supported format it actually writes the tag bytes. -/
theorem pullapod_c8_embed : ∀ (file : AudioFile) (tags : Id3Tags),
    (supportsTagging file.path = false →
      embedMetadata file tags = (file, true))
    ∧ (supportsTagging file.path = true →
      (embedMetadata file tags).1.bytes =
        id3TagBytes tags ++ file.bytes) := by
  intro file tags
  constructor
  · intro h
    simp [embedMetadata, h]
  · intro h
    simp [embedMetadata, h]

/-- Witness for C8: embedding into an M4A file returns success and leaves
the bytes unchanged. -/
theorem pullapod_c8_witness :
    embedMetadata ⟨"ep.m4a", [1, 2, 3]⟩ ⟨"t", "a", "c"⟩ =
      (⟨"ep.m4a", [1, 2, 3]⟩, true) :=
  (pullapod_c8_embed ⟨"ep.m4a", [1, 2, 3]⟩ ⟨"t", "a", "c"⟩).1 (by decide)

/-- C9: a parsed feed item with no item-level artwork resolves its
episode artwork to the feed-level image. -/
theorem pullapod_c9_artwork : ∀ (url : String) (it : RawItem)
    (e : EpisodeRecord), it.itemImage = none →
    parseItem (some url) it = some e → e.artworkUrl = some url := by
  intro url it e hImg hPe
  unfold parseItem at hPe
  cases hEnc : it.enclosureUrl with
  | none => rw [hEnc] at hPe; exact absurd hPe (by simp)
  | some u =>
    rw [hEnc] at hPe
    simp only [Option.some.injEq] at hPe
    rw [← hPe]
    simp [resolveArtwork, hImg]

/-- Witness for C9 at a concrete item lacking item artwork. -/
theorem pullapod_c9_witness :
    (⟨"With audio", "ga", 1714003200, "https://x/a.mp3",
      some "https://feed/img.png"⟩ : EpisodeRecord).artworkUrl =
      some "https://feed/img.png" :=
  pullapod_c9_artwork "https://feed/img.png"
    ⟨some "With audio", "ga", 1714003200, some "https://x/a.mp3", none⟩
    ⟨"With audio", "ga", 1714003200, "https://x/a.mp3",
      some "https://feed/img.png"⟩ (by decide) (by decide)

/-- C1 counterexample: dateToTimestamp parses 2024-04-25 as midnight UTC
(1714003200).  In the host timezone UTC-2 (offset -7200 seconds) that
instant falls on the local calendar day April 24, not April 25, and
differs from the local midnight of April 25, so the command-level
conversion does not agree with the local-calendar-day rule. -/
theorem pullapod_c1_counterexample :
    dateToTimestamp "2024-04-25" = some 1714003200
    ∧ localCalendarDay 1714003200 (-7200) ≠ daysFromCivil 2024 4 25
    ∧ some (localMidnight 2024 4 25 (-7200)) ≠
        dateToTimestamp "2024-04-25" := by
  refine ⟨by decide, by decide, by decide⟩

/-- C1 (amended): the exact-date filter selects exactly the episodes
whose publish instant falls on the target local calendar day; an instant
matches the day iff it lies in the 86400-second window starting at local
midnight, for every host offset; and the command-level dateToTimestamp
agrees with the local-midnight rule exactly in the zero-offset (UTC)
timezone. -/
theorem pullapod_c1_amended :
    (∀ (eps : List EpisodeRecord) (y m d : Nat) (o : Int)
      (e : EpisodeRecord),
      e ∈ filterByDate eps y m d o ↔ e ∈ eps ∧
        localCalendarDay e.pubTimestamp o = daysFromCivil y m d)
    ∧ (∀ (D o t : Int),
      localCalendarDay (D * 86400 - o + t) o = D ↔ 0 ≤ t ∧ t < 86400)
    ∧ (∀ (s : String) (y m d : Nat),
      validDateShape s.toList = some (y, m, d) →
      validCalendarDate y m d = true →
      dateToTimestamp s = some (localMidnight y m d 0)) := by
  refine ⟨fun eps y m d o e => ?_, fun D o t => ?_, fun s y m d h1 h2 => ?_⟩
  · simp [filterByDate, List.mem_filter]
  · unfold localCalendarDay
    omega
  · simp only [dateToTimestamp, h1, h2, if_true, localMidnight]
    norm_num

/-- Witness for C1 at the date 2024-04-25 in the zero-offset timezone. -/
theorem pullapod_c1_witness :
    dateToTimestamp "2024-04-25" = some (localMidnight 2024 4 25 0) :=
  pullapod_c1_amended.2.2 "2024-04-25" 2024 4 25 (by decide) (by decide)

/-- C2 counterexample: with --since given as the empty string — a string
that is not a valid YYYY-MM-DD date — the JS truthiness guard skips date
validation entirely and the run constructs the client and issues the API
request with no ValidationError. -/
theorem pullapod_c2_counterexample :
    validateDateFormat "" = false
    ∧ episodesCommandModel true none (some "") =
        ⟨[CmdEvent.clientInit, CmdEvent.apiRequest], none⟩ := by
  refine ⟨by decide, by decide⟩

/-- C2 (amended): for every invocation whose criteria contain a non-empty
date string that is not a valid YYYY-MM-DD date, the run fails with a
ValidationError and performs no effect: no client construction, no
request. -/
theorem pullapod_c2_amended : ∀ (hasCreds : Bool)
    (maxOpt : Option String) (s : String),
    s.isEmpty = false → validateDateFormat s = false →
    (episodesCommandModel hasCreds maxOpt (some s)).events = []
    ∧ ∃ msg, (episodesCommandModel hasCreds maxOpt (some s)).err =
        some (CmdError.validation msg) := by
  intro hasCreds maxOpt s hne hbad
  unfold episodesCommandModel
  have hsc : sinceCheck (some s) = Except.error ("Invalid " ++ "--since"
      ++ " format: " ++ s ++ ". Expected format: YYYY-MM-DD") := by
    simp [sinceCheck, hne, requireValidDate, hbad]
  rw [hsc]
  cases hr : validateRange (parseMaxOption maxOpt) (JSNum.int 1)
      (JSNum.int 100) "Max episodes" with
  | error msg => exact ⟨rfl, msg, rfl⟩
  | ok u => exact ⟨rfl, _, rfl⟩

/-- Witness for C2 at the shape-valid but unparseable date 2024-13-01. -/
theorem pullapod_c2_witness :
    (episodesCommandModel true none (some "2024-13-01")).events = []
    ∧ ∃ msg, (episodesCommandModel true none (some "2024-13-01")).err =
        some (CmdError.validation msg) :=
  pullapod_c2_amended true none "2024-13-01" (by decide) (by decide)

/-- C3: every selected episode yields exactly one DownloadResult in
selection order, counts partition the run, each result depends only on
its own episode's fetch outcome (so no failure blocks a sibling), and a
404 fetch yields a failed result whose cause contains "404" and the
episode title; the whole run always terminates in a RunReport since
runDownloads is a total function. -/
theorem pullapod_c3_report : ∀ (eps : List EpisodeRecord)
    (fetch : EpisodeRecord → DownloadOutcome),
    (runDownloads eps fetch).results.length = eps.length
    ∧ (runDownloads eps fetch).succeeded +
        (runDownloads eps fetch).failed = eps.length
    ∧ (∀ i : Nat, (runDownloads eps fetch).results[i]? =
        (eps[i]?).map (fun e => downloadResultFor e (fetch e)))
    ∧ ∀ (i : Nat) (e : EpisodeRecord), eps[i]? = some e →
        fetch e = DownloadOutcome.httpError 404 →
        (runDownloads eps fetch).results[i]? = some ⟨e.title, false, 0,
          some ("HTTP " ++ Nat.repr 404 ++ " downloading " ++ e.title)⟩
        ∧ ∃ pre post, "HTTP " ++ Nat.repr 404 ++ " downloading " ++
            e.title = pre ++ "404" ++ post := by
  intro eps fetch
  have hidx : ∀ i : Nat, (runDownloads eps fetch).results[i]? =
      (eps[i]?).map (fun e => downloadResultFor e (fetch e)) := by
    intro i
    simp [runDownloads, List.getElem?_map]
  have hcount := filterLengthSplit
    (eps.map (fun e => downloadResultFor e (fetch e))) (fun r => r.ok)
  simp only [List.length_map] at hcount
  refine ⟨by simp [runDownloads], by simpa [runDownloads] using hcount,
    hidx, fun i e he hf => ?_⟩
  constructor
  · rw [hidx i, he]
    have hmap : Option.map (fun e => downloadResultFor e (fetch e))
        (some e) = some (downloadResultFor e (fetch e)) := rfl
    rw [hmap, hf]
    rfl
  · refine ⟨"HTTP ", " downloading " ++ e.title, ?_⟩
    rw [show Nat.repr 404 = "404" from rfl]
    exact String.append_assoc ("HTTP " ++ "404") " downloading " e.title

/-- Witness for C3: in a two-episode run where the first URL returns
HTTP 404, the first result is failed with a cause naming 404 and the
episode, and the second result succeeds untouched. -/
theorem pullapod_c3_witness :
    ((runDownloads [epBad, epGood] fetch404).results[0]? =
      some ⟨epBad.title, false, 0, some ("HTTP " ++ Nat.repr 404 ++
        " downloading " ++ epBad.title)⟩
    ∧ ∃ pre post, "HTTP " ++ Nat.repr 404 ++ " downloading " ++
        epBad.title = pre ++ "404" ++ post)
    ∧ (runDownloads [epBad, epGood] fetch404).results[1]? =
      some (downloadResultFor epGood (fetch404 epGood)) :=
  ⟨(pullapod_c3_report [epBad, epGood] fetch404).2.2.2 0 epBad
      (by decide) (by decide),
    by rw [(pullapod_c3_report [epBad, epGood] fetch404).2.2.1 1]; rfl⟩

/-- C4: the parsed episode list has exactly total - N entries where N is
the number of items lacking an audio enclosure — such items are silently
excluded (parseItems is total, no error is raised) — and every returned
episode carries the enclosure URL of one of the feed's items. -/
theorem pullapod_c4_feedItems : ∀ (f : Option String)
    (items : List RawItem),
    (parseItems f items).length = items.length -
      (items.filter (fun it => it.enclosureUrl.isNone)).length
    ∧ ∀ e ∈ parseItems f items, ∃ it ∈ items,
        it.enclosureUrl = some e.audioUrl := by
  intro f items
  refine ⟨parseItems_length f items, fun e he => ?_⟩
  simp only [parseItems] at he
  rcases List.mem_filterMap.mp he with ⟨it, hit, hpe⟩
  exact ⟨it, hit, parseItem_enclosureUrl f it e hpe⟩

/-- Witness for C4: of two items, one lacking an enclosure, exactly one
episode is returned and its audio URL comes from the enclosure item. -/
theorem pullapod_c4_witness :
    (parseItems none [rawWithEnclosure, rawNoEnclosure]).length = 2 - 1
    ∧ ∃ it ∈ [rawWithEnclosure, rawNoEnclosure],
        it.enclosureUrl = some "https://x/a.mp3" :=
  ⟨(pullapod_c4_feedItems none [rawWithEnclosure, rawNoEnclosure]).1,
    (pullapod_c4_feedItems none [rawWithEnclosure, rawNoEnclosure]).2
      ⟨"With audio", "ga", 1714003200, "https://x/a.mp3", none⟩
      (by decide)⟩

/-- C10: with the default suffix, truncateText returns empty or short
input unchanged; otherwise, for maxLength at least 3, the result is at
most maxLength long, ends in the suffix, and cuts at the last space at or
before the limit when a space exists there. -/
theorem pullapod_c10_truncate (text : String) (maxLength : Nat) :
    (text.isEmpty = true ∨ text.length ≤ maxLength →
      truncateText text maxLength "..." = text)
    ∧ (maxLength < text.length → 3 ≤ maxLength →
      (truncateText text maxLength "...").length ≤ maxLength
      ∧ (∃ pre, truncateText text maxLength "..." = pre ++ "...")
      ∧ ∀ j, j ≤ maxLength - 3 → text.toList.getD j 'a' = ' ' →
          ∃ i, i ≤ maxLength - 3 ∧ text.toList.getD i 'a' = ' ' ∧ j ≤ i ∧
            (∀ i2, i < i2 → i2 ≤ maxLength - 3 →
              text.toList.getD i2 'a' ≠ ' ') ∧
            truncateText text maxLength "..." =
              String.mk (text.toList.take i) ++ "...") := by
  constructor
  · intro h
    have hcond : (text.isEmpty || decide (text.length ≤ maxLength))
        = true := by
      rcases h with h | h
      · simp [h]
      · simp [h]
    simp only [truncateText]
    rw [if_pos hcond]
  · intro hlen h3
    have hne : text.isEmpty = false := by
      cases he : text.isEmpty
      · rfl
      · rw [(String.isEmpty_iff text).mp he] at hlen
        simp at hlen
    have hcond : (text.isEmpty || decide (text.length ≤ maxLength))
        = false := by
      simp [hne]
      omega
    have hlistlen : text.toList.length = text.length := rfl
    have hsuf : ("..." : String).length = 3 := rfl
    cases hm : lastSpaceAtOrBefore text.toList (maxLength - 3) with
    | none =>
      have hres : truncateText text maxLength "..." =
          String.mk (text.toList.take (maxLength - 3)) ++ "..." := by
        unfold truncateText
        rw [if_neg (by rw [hcond]; exact Bool.false_ne_true)]
        rw [hsuf, hm]
      refine ⟨?_, ⟨String.mk (text.toList.take (maxLength - 3)),
        hres⟩, ?_⟩
      · rw [hres, String.length_append]
        have hmk : (String.mk (text.toList.take (maxLength - 3))).length
            = (text.toList.take (maxLength - 3)).length := rfl
        rw [hmk, List.length_take, hsuf]
        omega
      · intro j hj hsp
        rcases lastSpace_found text.toList (maxLength - 3) j hj hsp
          with ⟨i, hi, _⟩
        rw [hm] at hi
        exact Option.noConfusion hi
    | some i =>
      have hres : truncateText text maxLength "..." =
          String.mk (text.toList.take i) ++ "..." := by
        unfold truncateText
        rw [if_neg (by rw [hcond]; exact Bool.false_ne_true)]
        rw [hsuf, hm]
      have hile := lastSpace_le text.toList (maxLength - 3) i hm
      have hisp := lastSpace_space text.toList (maxLength - 3) i hm
      refine ⟨?_, ⟨String.mk (text.toList.take i), hres⟩, ?_⟩
      · rw [hres, String.length_append]
        have hmk : (String.mk (text.toList.take i)).length =
            (text.toList.take i).length := rfl
        rw [hmk, List.length_take, hsuf]
        omega
      · intro j hj hsp
        rcases lastSpace_found text.toList (maxLength - 3) j hj hsp
          with ⟨i2, hi2, hji⟩
        rw [hm] at hi2
        simp only [Option.some.injEq] at hi2
        subst hi2
        exact ⟨i, hile, hisp, hji,
          lastSpace_maximal text.toList (maxLength - 3) i hm, hres⟩

/-- Witness for C10: truncating a 21-character sentence to 10 cuts at the
last space at or before position 7 and appends the suffix. -/
theorem pullapod_c10_witness :
    ∃ i, i ≤ 10 - 3 ∧ ("hello brave new world").toList.getD i 'a' = ' '
      ∧ 5 ≤ i
      ∧ (∀ i2, i < i2 → i2 ≤ 10 - 3 →
          ("hello brave new world").toList.getD i2 'a' ≠ ' ')
      ∧ truncateText "hello brave new world" 10 "..." =
          String.mk (("hello brave new world").toList.take i) ++ "..." :=
  ((pullapod_c10_truncate "hello brave new world" 10).2 (by decide)
    (by decide)).2.2 5 (by decide) (by decide)

/-- An instant at local noon of an epoch day falls on that local
calendar day, for every host offset. -/
theorem localDay_atLocalNoon (D o : Int) :
    localCalendarDay (D * 86400 + 43200 - o) o = D := by
  unfold localCalendarDay
  omega

/-- C6: the date-range filter is inclusive on both ends with either
bound optional, compares by local calendar day exactly as the exact-date
filter does, preserves feed order, and on the three-episode January
scenario returns exactly the expected episodes for a two-sided,
start-only and end-only range, for every host offset. -/
theorem pullapod_c6_range :
    (∀ (eps : List EpisodeRecord) (sD eD : Option (Nat × Nat × Nat))
      (o : Int) (e : EpisodeRecord),
      e ∈ filterByDateRange eps sD eD o ↔ e ∈ eps ∧
        (∀ p ∈ sD, daysFromCivil p.1 p.2.1 p.2.2 ≤
          localCalendarDay e.pubTimestamp o) ∧
        (∀ p ∈ eD, localCalendarDay e.pubTimestamp o ≤
          daysFromCivil p.1 p.2.1 p.2.2))
    ∧ (∀ (eps : List EpisodeRecord) (sD eD : Option (Nat × Nat × Nat))
      (o : Int), List.Sublist (filterByDateRange eps sD eD o) eps)
    ∧ (∀ o : Int, filterByDateRange [epJan15 o, epJan16 o, epJan17 o]
        (some (2024, 1, 15)) (some (2024, 1, 16)) o =
        [epJan15 o, epJan16 o])
    ∧ (∀ o : Int, filterByDateRange [epJan15 o, epJan16 o, epJan17 o]
        (some (2024, 1, 15)) none o =
        [epJan15 o, epJan16 o, epJan17 o])
    ∧ (∀ o : Int, filterByDateRange [epJan15 o, epJan16 o, epJan17 o]
        none (some (2024, 1, 16)) o = [epJan15 o, epJan16 o]) := by
  have h15 : daysFromCivil 2024 1 15 = 19737 := by decide
  have h16 : daysFromCivil 2024 1 16 = 19738 := by decide
  have h17 : daysFromCivil 2024 1 17 = 19739 := by decide
  have l15 : ∀ o : Int, localCalendarDay (1705320000 - o) o = 19737 := by
    intro o
    unfold localCalendarDay
    omega
  have l16 : ∀ o : Int, localCalendarDay (1705406400 - o) o = 19738 := by
    intro o
    unfold localCalendarDay
    omega
  have l17 : ∀ o : Int, localCalendarDay (1705492800 - o) o = 19739 := by
    intro o
    unfold localCalendarDay
    omega
  refine ⟨fun eps sD eD o e => ?_, fun eps sD eD o => List.filter_sublist
    eps, fun o => ?_, fun o => ?_, fun o => ?_⟩
  · cases sD <;> cases eD <;>
      simp [filterByDateRange, List.mem_filter, inDateRange, and_assoc]
  · simp [filterByDateRange, List.filter, epJan15, epJan16, epJan17,
      epAtLocalNoon, inDateRange, h15, h16, h17, l15, l16, l17]
  · simp [filterByDateRange, List.filter, epJan15, epJan16, epJan17,
      epAtLocalNoon, inDateRange, h15, h16, h17, l15, l16, l17]
  · simp [filterByDateRange, List.filter, epJan15, epJan16, epJan17,
      epAtLocalNoon, inDateRange, h15, h16, h17, l15, l16, l17]

/-- Witness for C6: the two-sided January scenario in the UTC-5 timezone
(offset -18000 seconds). -/
theorem pullapod_c6_witness :
    filterByDateRange [epJan15 (-18000), epJan16 (-18000),
      epJan17 (-18000)] (some (2024, 1, 15)) (some (2024, 1, 16))
      (-18000) = [epJan15 (-18000), epJan16 (-18000)] :=
  pullapod_c6_range.2.2.1 (-18000)

/-- A non-whitespace character is not the space character. -/
theorem ws_not_space {c : Char} (h : c.isWhitespace = false) :
    (c == ' ') = false := by
  cases hc : c == ' '
  · rfl
  · have hcs : c = ' ' := eq_of_beq hc
    subst hcs
    exact absurd h (by decide)

/-- Collapsing whitespace walks past a non-whitespace head. -/
theorem collapse_cons_of_not_ws {b : Char} (rest : List Char)
    (h : b.isWhitespace = false) :
    collapseWhitespace (b :: rest) = b :: collapseWhitespace rest := by
  cases rest with
  | nil => simp [collapseWhitespace, h]
  | cons c t => simp [collapseWhitespace, h]

/-- One-step unfolding of wsNormalized on a cons. -/
theorem wsNormalized_cons (c : Char) (t : List Char) :
    wsNormalized (c :: t) =
      ((!c.isWhitespace || c == ' ') && wsNormalized t) := by
  cases t <;> rfl

/-- One-step unfolding of noAdjacentSpaces on two conses. -/
theorem noAdjacentSpaces_cons2 (a b : Char) (t : List Char) :
    noAdjacentSpaces (a :: b :: t) =
      (!(a == ' ' && b == ' ') && noAdjacentSpaces (b :: t)) := rfl

/-- noAdjacentSpaces ignores a head that is not a space. -/
theorem noAdjacentSpaces_cons_of_ne {a : Char} (X : List Char)
    (h : (a == ' ') = false) :
    noAdjacentSpaces (a :: X) = noAdjacentSpaces X := by
  cases X with
  | nil => rfl
  | cons x xs => simp [noAdjacentSpaces, h]

/-- Every whitespace character surviving collapseWhitespace is a plain
space. -/
theorem collapse_wsNormalized (cs : List Char) :
    wsNormalized (collapseWhitespace cs) = true := by
  induction cs with
  | nil => rfl
  | cons a t ih =>
    cases t with
    | nil =>
      cases ha : a.isWhitespace
      · simp [collapseWhitespace, ha, wsNormalized]
      · simp [collapseWhitespace, ha, wsNormalized]
    | cons b rest =>
      cases ha : a.isWhitespace
      case false =>
        rw [show collapseWhitespace (a :: b :: rest) =
          a :: collapseWhitespace (b :: rest) from by
            simp [collapseWhitespace, ha]]
        rw [wsNormalized_cons, ih, ha]
        rfl
      case true =>
        cases hb : b.isWhitespace
        case true =>
          rw [show collapseWhitespace (a :: b :: rest) =
            collapseWhitespace (b :: rest) from by
              simp [collapseWhitespace, ha, hb]]
          exact ih
        case false =>
          rw [show collapseWhitespace (a :: b :: rest) =
            ' ' :: collapseWhitespace (b :: rest) from by
              simp [collapseWhitespace, ha, hb]]
          rw [wsNormalized_cons, ih]
          rfl

/-- collapseWhitespace leaves no two adjacent spaces. -/
theorem collapse_noAdjacent (cs : List Char) :
    noAdjacentSpaces (collapseWhitespace cs) = true := by
  induction cs with
  | nil => rfl
  | cons a t ih =>
    cases t with
    | nil =>
      cases ha : a.isWhitespace
      · simp [collapseWhitespace, ha, noAdjacentSpaces]
      · simp [collapseWhitespace, ha, noAdjacentSpaces]
    | cons b rest =>
      cases ha : a.isWhitespace
      case false =>
        rw [show collapseWhitespace (a :: b :: rest) =
          a :: collapseWhitespace (b :: rest) from by
            simp [collapseWhitespace, ha]]
        rw [noAdjacentSpaces_cons_of_ne _ (ws_not_space ha)]
        exact ih
      case true =>
        cases hb : b.isWhitespace
        case true =>
          rw [show collapseWhitespace (a :: b :: rest) =
            collapseWhitespace (b :: rest) from by
              simp [collapseWhitespace, ha, hb]]
          exact ih
        case false =>
          rw [show collapseWhitespace (a :: b :: rest) =
            ' ' :: collapseWhitespace (b :: rest) from by
              simp [collapseWhitespace, ha, hb]]
          rw [collapse_cons_of_not_ws rest hb]
          rw [noAdjacentSpaces_cons2]
          rw [ws_not_space hb]
          rw [← collapse_cons_of_not_ws rest hb, ih]
          rfl

/-- A list with only plain single spaces as whitespace and no adjacent
spaces is a fixed point of collapseWhitespace. -/
theorem collapse_fixed : ∀ cs : List Char, wsNormalized cs = true →
    noAdjacentSpaces cs = true → collapseWhitespace cs = cs := by
  intro cs
  induction cs with
  | nil => intro _ _; rfl
  | cons a t ih =>
    intro hws hadj
    cases t with
    | nil =>
      rw [wsNormalized_cons] at hws
      rw [Bool.and_eq_true] at hws
      rcases hws with ⟨hwa, _⟩
      cases ha : a.isWhitespace
      · simp [collapseWhitespace, ha]
      · have ha2 : a = ' ' := by
          rw [ha] at hwa
          simp only [Bool.not_true, Bool.false_or] at hwa
          exact eq_of_beq hwa
        subst ha2
        simp [collapseWhitespace]
    | cons b rest =>
      rw [wsNormalized_cons] at hws
      rw [Bool.and_eq_true] at hws
      rcases hws with ⟨hwa, hwtail⟩
      rw [noAdjacentSpaces_cons2] at hadj
      rw [Bool.and_eq_true] at hadj
      rcases hadj with ⟨hadj1, hadjtail⟩
      cases ha : a.isWhitespace
      case false =>
        rw [show collapseWhitespace (a :: b :: rest) =
          a :: collapseWhitespace (b :: rest) from by
            simp [collapseWhitespace, ha]]
        rw [ih hwtail hadjtail]
      case true =>
        have ha2 : a = ' ' := by
          rw [ha] at hwa
          simp only [Bool.not_true, Bool.false_or] at hwa
          exact eq_of_beq hwa
        have hbne : (b == ' ') = false := by
          rw [ha2] at hadj1
          simp only [beq_self_eq_true, Bool.true_and] at hadj1
          cases hbb : b == ' '
          · rfl
          · rw [hbb] at hadj1
            exact absurd hadj1 (by decide)
        have hb : b.isWhitespace = false := by
          cases hbw : b.isWhitespace
          · rfl
          · rw [wsNormalized_cons] at hwtail
            rw [Bool.and_eq_true] at hwtail
            rcases hwtail with ⟨hwb, _⟩
            rw [hbw] at hwb
            simp only [Bool.not_true, Bool.false_or] at hwb
            rw [hwb] at hbne
            exact absurd hbne (by decide)
        rw [show collapseWhitespace (a :: b :: rest) =
          ' ' :: collapseWhitespace (b :: rest) from by
            simp [collapseWhitespace, ha, hb]]
        rw [ih hwtail hadjtail, ha2]

/-- Characters of collapseWhitespace output come from the input or are
the plain space. -/
theorem collapse_mem : ∀ (cs : List Char) (c : Char),
    c ∈ collapseWhitespace cs → c ∈ cs ∨ c = ' ' := by
  intro cs
  induction cs with
  | nil =>
    intro c hc
    exact absurd hc (by simp [collapseWhitespace])
  | cons a t ih =>
    intro c hc
    cases t with
    | nil =>
      simp only [collapseWhitespace, List.mem_singleton] at hc
      split at hc
      · exact Or.inr hc
      · exact Or.inl (by simp [hc])
    | cons b rest =>
      cases ha : a.isWhitespace
      case false =>
        rw [show collapseWhitespace (a :: b :: rest) =
          a :: collapseWhitespace (b :: rest) from by
            simp [collapseWhitespace, ha]] at hc
        rcases List.mem_cons.mp hc with h | h
        · exact Or.inl (by simp [h])
        · rcases ih c h with h2 | h2
          · exact Or.inl (List.mem_cons_of_mem a h2)
          · exact Or.inr h2
      case true =>
        cases hb : b.isWhitespace
        case true =>
          rw [show collapseWhitespace (a :: b :: rest) =
            collapseWhitespace (b :: rest) from by
              simp [collapseWhitespace, ha, hb]] at hc
          rcases ih c hc with h2 | h2
          · exact Or.inl (List.mem_cons_of_mem a h2)
          · exact Or.inr h2
        case false =>
          rw [show collapseWhitespace (a :: b :: rest) =
            ' ' :: collapseWhitespace (b :: rest) from by
              simp [collapseWhitespace, ha, hb]] at hc
          rcases List.mem_cons.mp hc with h | h
          · exact Or.inr h
          · rcases ih c h with h2 | h2
            · exact Or.inl (List.mem_cons_of_mem a h2)
            · exact Or.inr h2

/-- stripTrailingPeriods returns a leading part of its input. -/
theorem stripTrailingPeriods_isPre (cs : List Char) :
    stripTrailingPeriods cs <+: cs := by
  unfold stripTrailingPeriods
  have h : List.dropWhile (fun c => c == '.') cs.reverse <:+
      cs.reverse := List.dropWhile_suffix (fun c => c == '.')
  have h2 := List.reverse_prefix.mpr h
  rw [List.reverse_reverse] at h2
  exact h2

/-- The head surviving dropWhile does not satisfy the predicate. -/
theorem head_dropWhile_not (p : Char → Bool) : ∀ (l : List Char)
    (a : Char), (l.dropWhile p).head? = some a → p a = false := by
  intro l
  induction l with
  | nil => intro a h; exact Option.noConfusion h
  | cons b t ih =>
    intro a h
    cases hb : p b
    · rw [List.dropWhile_cons_of_neg (by simp [hb])] at h
      simp only [List.head?_cons, Option.some.injEq] at h
      rw [← h]
      exact hb
    · rw [List.dropWhile_cons_of_pos hb] at h
      exact ih a h

/-- stripTrailingPeriods leaves no trailing period. -/
theorem stripTrailingPeriods_getLast (cs : List Char) :
    (stripTrailingPeriods cs).getLast? ≠ some '.' := by
  unfold stripTrailingPeriods
  intro h
  rw [← List.head?_reverse, List.reverse_reverse] at h
  have := head_dropWhile_not (fun c => c == '.') cs.reverse '.' h
  exact absurd this (by decide)

/-- dropWhile is the identity when the head fails the predicate. -/
theorem dropWhile_eq_self_of_head (p : Char → Bool) : ∀ l : List Char,
    (∀ a, l.head? = some a → p a = false) → l.dropWhile p = l := by
  intro l h
  cases l with
  | nil => rfl
  | cons b t =>
    rw [List.dropWhile_cons_of_neg]
    simp [h b rfl]

/-- A list without a trailing period is a fixed point of
stripTrailingPeriods. -/
theorem stripTrailingPeriods_fixed (cs : List Char)
    (h : cs.getLast? ≠ some '.') : stripTrailingPeriods cs = cs := by
  unfold stripTrailingPeriods
  have hd : cs.reverse.dropWhile (fun c => c == '.') = cs.reverse := by
    apply dropWhile_eq_self_of_head
    intro a ha
    rw [List.head?_reverse] at ha
    cases hq : a == '.'
    · rfl
    · have haq : a = '.' := eq_of_beq hq
      subst haq
      exact absurd ha h
  rw [hd, List.reverse_reverse]

/-- wsNormalized restricts to a leading part. -/
theorem wsNormalized_append_left : ∀ (l1 t : List Char),
    wsNormalized (l1 ++ t) = true → wsNormalized l1 = true := by
  intro l1
  induction l1 with
  | nil => intro t _; rfl
  | cons a l ih =>
    intro t h
    rw [List.cons_append, wsNormalized_cons] at h
    rw [Bool.and_eq_true] at h
    rcases h with ⟨h1, h2⟩
    rw [wsNormalized_cons, h1, ih t h2]
    rfl

/-- noAdjacentSpaces restricts to a leading part. -/
theorem noAdjacentSpaces_append_left : ∀ (l1 t : List Char),
    noAdjacentSpaces (l1 ++ t) = true → noAdjacentSpaces l1 = true := by
  intro l1
  induction l1 with
  | nil => intro t _; rfl
  | cons a l ih =>
    intro t h
    cases l with
    | nil => rfl
    | cons b rest =>
      rw [List.cons_append, List.cons_append,
        noAdjacentSpaces_cons2] at h
      rw [Bool.and_eq_true] at h
      rcases h with ⟨h1, h2⟩
      rw [noAdjacentSpaces_cons2, h1]
      rw [ih t h2]
      rfl

/-- The sanitization pipeline output has no illegal character, only
plain single spaces, no adjacent spaces, and no trailing period. -/
theorem san_props (cs : List Char) :
    (stripTrailingPeriods (collapseWhitespace
        (cs.filter (fun c => !illegalFsChar c)))).all
      (fun c => !illegalFsChar c) = true
    ∧ wsNormalized (stripTrailingPeriods (collapseWhitespace
        (cs.filter (fun c => !illegalFsChar c)))) = true
    ∧ noAdjacentSpaces (stripTrailingPeriods (collapseWhitespace
        (cs.filter (fun c => !illegalFsChar c)))) = true
    ∧ (stripTrailingPeriods (collapseWhitespace
        (cs.filter (fun c => !illegalFsChar c)))).getLast? ≠
          some '.' := by
  have hpre := stripTrailingPeriods_isPre (collapseWhitespace
    (cs.filter (fun c => !illegalFsChar c)))
  obtain ⟨t, ht⟩ := hpre
  refine ⟨?_, ?_, ?_, stripTrailingPeriods_getLast _⟩
  · rw [List.all_eq_true]
    intro c hc
    have hc2 : c ∈ collapseWhitespace
        (cs.filter (fun c => !illegalFsChar c)) := by
      rw [← ht]
      exact List.mem_append_left t hc
    rcases collapse_mem _ c hc2 with h | h
    · exact (List.mem_filter.mp h).2
    · subst h
      decide
  · exact wsNormalized_append_left _ t
      (by rw [ht]; exact collapse_wsNormalized _)
  · exact noAdjacentSpaces_append_left _ t
      (by rw [ht]; exact collapse_noAdjacent _)

/-- A list already satisfying the four safety properties is a fixed
point of the sanitization pipeline. -/
theorem san_fixed (cs : List Char)
    (h1 : cs.all (fun c => !illegalFsChar c) = true)
    (h2 : wsNormalized cs = true) (h3 : noAdjacentSpaces cs = true)
    (h4 : cs.getLast? ≠ some '.') :
    stripTrailingPeriods (collapseWhitespace
      (cs.filter (fun c => !illegalFsChar c))) = cs := by
  rw [show cs.filter (fun c => !illegalFsChar c) = cs from
    List.filter_eq_self.mpr (List.all_eq_true.mp h1)]
  rw [collapse_fixed cs h2 h3]
  exact stripTrailingPeriods_fixed cs h4

/-- C7: filename sanitization is idempotent and deterministic (it is a
pure function), and a string that is already filesystem-safe is
returned unchanged. -/
theorem pullapod_c7_sanitize (s : String) :
    sanitizeForFilesystem (sanitizeForFilesystem s) =
      sanitizeForFilesystem s
    ∧ (isFsSafe s = true → sanitizeForFilesystem s = s) := by
  constructor
  · obtain ⟨p1, p2, p3, p4⟩ := san_props s.toList
    have h := san_fixed (stripTrailingPeriods (collapseWhitespace
      ((s.toList).filter (fun c => !illegalFsChar c)))) p1 p2 p3 p4
    show String.mk (stripTrailingPeriods (collapseWhitespace
      ((stripTrailingPeriods (collapseWhitespace
        ((s.toList).filter (fun c => !illegalFsChar c)))).filter
          (fun c => !illegalFsChar c)))) = sanitizeForFilesystem s
    rw [h]
    rfl
  · intro hsafe
    simp only [isFsSafe, Bool.and_eq_true] at hsafe
    obtain ⟨⟨⟨hall, hws⟩, hadj⟩, hlast⟩ := hsafe
    have hlast2 : s.toList.getLast? ≠ some '.' := by
      simpa [bne_iff_ne] using hlast
    have h := san_fixed s.toList hall hws hadj hlast2
    show String.mk (stripTrailingPeriods (collapseWhitespace
      ((s.toList).filter (fun c => !illegalFsChar c)))) = s
    rw [h]
    cases s
    rfl

/-- Witness for C7: a typical episode filename is already safe and is
returned unchanged. -/
theorem pullapod_c7_witness :
    isFsSafe "Episode 42 - The Answer" = true
    ∧ sanitizeForFilesystem "Episode 42 - The Answer" =
        "Episode 42 - The Answer" :=
  ⟨by decide,
    (pullapod_c7_sanitize "Episode 42 - The Answer").2 (by decide)⟩

end Pullapod
